import Mathlib

/-!
gz-common, `ignition/common/Util.hh` and `ignition/common/System.hh`

A shallow embedding of the two headers and proofs about it.

* the conversion constants `IGN_NANO_TO_SEC`, `IGN_SEC_TO_NANO`, `IGN_MS_TO_NANO`,
  `IGN_US_TO_NANO` (Util.hh lines 31-41);
* the assertion wrapper `ign_assert` (Util.hh line 86);
* the conditional-compilation blocks that define the deprecation, inlining and
  visibility attributes (Util.hh lines 88-127, System.hh lines 20-59), as functions
  from a preprocessor configuration to the token list a use of the name expands to;
* the template `ignition::common::getSha1` (Util.hh lines 184-211).

Layout: all definitions first, then the lemmas and theorems.
-/

/-! ## Conversion constants (Util.hh lines 31-41) -/

/-- Util.hh line 32, `#define IGN_NANO_TO_SEC 0.0000000001`, documented as
"Seconds in one nano second". The literal is kept digit for digit and read as an
exact decimal. -/
def IGN_NANO_TO_SEC : ℚ := 0.0000000001

/-- Util.hh line 35, `#define IGN_SEC_TO_NANO 1000000000`, "Nano seconds in one second". -/
def IGN_SEC_TO_NANO : Int := 1000000000

/-- Util.hh line 38, `#define IGN_MS_TO_NANO 1000000`, "Nano seconds in one millisecond". -/
def IGN_MS_TO_NANO : Int := 1000000

/-- Util.hh line 41, `#define IGN_US_TO_NANO 1000`, "Nano seconds in one microsecond". -/
def IGN_US_TO_NANO : Int := 1000

/-- Largest value of a signed 32-bit integer. -/
def INT32_MAX : Int := 2 ^ 31 - 1

/-- Smallest value of a signed 32-bit integer. -/
def INT32_MIN : Int := -(2 ^ 31)

/-! ## `ign_assert` (Util.hh line 86) -/

/-- What a statement does to the flow of control: execution goes on with the next
statement, or the program is halted (`abort`). -/
inductive Outcome where
  | continues
  | halts
deriving DecidableEq, Repr

/-- Modelled from the spec: `assert` is the standard macro of `<cassert>`, which Util.hh
includes (line 23) but which is not part of the repository. The spec describes a runtime
assertion that halts execution when the condition is false; the standard adds the switch
that the build controls: when `NDEBUG` is defined where `<cassert>` is included, `assert(e)`
expands to `((void)0)` and does nothing. Otherwise it halts exactly when `e` is false. -/
def cassert (NDEBUG : Bool) (e : Bool) : Outcome :=
  if NDEBUG then Outcome.continues
  else if e then Outcome.continues else Outcome.halts

/-- The built-in comma operator `(lhs, rhs)`: `lhs` is evaluated and discarded, the value
of the expression is the value of `rhs`. -/
def comma {α β : Type} (_lhs : α) (rhs : β) : β := rhs

/-- Util.hh line 86: `#define ign_assert(_expr, _msg) assert((_msg, _expr))`. -/
def ign_assert (NDEBUG : Bool) (_expr : Bool) (_msg : String) : Outcome :=
  cassert NDEBUG (comma _msg _expr)

/-! ## Attribute definitions (Util.hh lines 88-127, System.hh lines 20-59) -/

/-- The preprocessor symbols the two headers test. `GNUC` is `none` when `__GNUC__` is not
defined and `some v` when it is defined with value `v`; the others are only tested with
`defined` or `#ifdef`. -/
structure Config where
  GNUC : Option Int
  WIN32 : Bool
  CYGWIN : Bool
  MSVC : Bool
  BUILDING_DLL : Bool
deriving DecidableEq, Repr

/-- The result of expanding a name: a sequence of preprocessing tokens. -/
abbrev Tokens := List String

/-- Value of `__GNUC__` inside `#if`: an identifier that is not defined evaluates to 0. -/
def Config.gnucValue (c : Config) : Int := c.GNUC.getD 0

/-- Tokens of `__attribute__((deprecated))`. -/
def tokAttrDeprecated : Tokens := ["__attribute__", "(", "(", "deprecated", ")", ")"]

/-- Tokens of `__attribute__((always_inline))`. -/
def tokAttrAlwaysInline : Tokens := ["__attribute__", "(", "(", "always_inline", ")", ")"]

/-- Tokens of `__attribute__ ((dllexport))`. -/
def tokAttrDllexport : Tokens := ["__attribute__", "(", "(", "dllexport", ")", ")"]

/-- Tokens of `__attribute__ ((dllimport))`. -/
def tokAttrDllimport : Tokens := ["__attribute__", "(", "(", "dllimport", ")", ")"]

/-- Tokens of `__declspec(dllexport)`. -/
def tokDeclspecDllexport : Tokens := ["__declspec", "(", "dllexport", ")"]

/-- Tokens of `__declspec(dllimport)`. -/
def tokDeclspecDllimport : Tokens := ["__declspec", "(", "dllimport", ")"]

/-- Tokens of `__attribute__ ((visibility ("default")))`. -/
def tokVisibilityDefault : Tokens :=
  ["__attribute__", "(", "(", "visibility", "(", "\"default\"", ")", ")", ")"]

/-- Tokens of `__attribute__ ((visibility ("hidden")))`. -/
def tokVisibilityHidden : Tokens :=
  ["__attribute__", "(", "(", "visibility", "(", "\"hidden\"", ")", ")", ")"]

/-- Util.hh lines 88-97, `IGN_DEPRECATED(version)`: the argument is not used by any of
the three replacement lists. -/
def IGN_DEPRECATED (c : Config) (_version : Tokens) : Tokens :=
  if c.GNUC.isSome then tokAttrDeprecated
  else if c.MSVC then ["(", ")"]
  else ["(", ")"]

/-- Util.hh lines 88-97, `IGN_FORCEINLINE`: the middle branch tests `defined(MSVC)`. -/
def IGN_FORCEINLINE (c : Config) : Tokens :=
  if c.GNUC.isSome then tokAttrAlwaysInline
  else if c.MSVC then ["__forceinline"]
  else []

/-- Util.hh lines 104-127, `IGNITION_VISIBLE`. -/
def IGNITION_VISIBLE (c : Config) : Tokens :=
  if c.WIN32 || c.CYGWIN then
    if c.BUILDING_DLL then
      if c.GNUC.isSome then tokAttrDllexport else tokDeclspecDllexport
    else
      if c.GNUC.isSome then tokAttrDllimport else tokDeclspecDllimport
  else
    if c.gnucValue ≥ 4 then tokVisibilityDefault else []

/-- Util.hh lines 104-127, `IGNITION_HIDDEN`. -/
def IGNITION_HIDDEN (c : Config) : Tokens :=
  if c.WIN32 || c.CYGWIN then []
  else
    if c.gnucValue ≥ 4 then tokVisibilityHidden else []

/-- System.hh lines 20-29, `IGNITION_COMMON_DEPRECATED(version)`. -/
def IGNITION_COMMON_DEPRECATED (c : Config) (_version : Tokens) : Tokens :=
  if c.GNUC.isSome then tokAttrDeprecated
  else if c.WIN32 then ["(", ")"]
  else ["(", ")"]

/-- System.hh lines 20-29, `IGNITION_COMMON_FORCEINLINE`: the middle branch tests
`defined(_WIN32)`. -/
def IGNITION_COMMON_FORCEINLINE (c : Config) : Tokens :=
  if c.GNUC.isSome then tokAttrAlwaysInline
  else if c.WIN32 then ["__forceinline"]
  else []

/-- System.hh lines 36-59, `IGNITION_COMMON_VISIBLE`. -/
def IGNITION_COMMON_VISIBLE (c : Config) : Tokens :=
  if c.WIN32 || c.CYGWIN then
    if c.BUILDING_DLL then
      if c.GNUC.isSome then tokAttrDllexport else tokDeclspecDllexport
    else
      if c.GNUC.isSome then tokAttrDllimport else tokDeclspecDllimport
  else
    if c.gnucValue ≥ 4 then tokVisibilityDefault else []

/-- System.hh lines 36-59, `IGNITION_COMMON_HIDDEN`. -/
def IGNITION_COMMON_HIDDEN (c : Config) : Tokens :=
  if c.WIN32 || c.CYGWIN then []
  else
    if c.gnucValue ≥ 4 then tokVisibilityHidden else []

/-! ## The hashing primitive used by `getSha1` -/

namespace boost.uuids.detail

/-- The five 32-bit words `a b c d e` of a SHA-1 chaining value. -/
structure Words5 where
  a : Nat
  b : Nat
  c : Nat
  d : Nat
  e : Nat
deriving DecidableEq, Repr

/-- 32-bit rotation to the left by `n` bit positions. -/
def left_rotate (x n : Nat) : Nat :=
  ((x <<< n) ||| (x >>> (32 - n))) % 2 ^ 32

/-- Initial chaining value of SHA-1. -/
def initialWords : Words5 :=
  ⟨0x67452301, 0xEFCDAB89, 0x98BADCFE, 0x10325476, 0xC3D2E1F0⟩

/-- The sixteen big-endian 32-bit words of a 64-byte block. -/
def blockWords (block : List Nat) : List Nat :=
  (List.range 16).map fun i =>
    block.getD (i * 4) 0 <<< 24 ||| block.getD (i * 4 + 1) 0 <<< 16
      ||| block.getD (i * 4 + 2) 0 <<< 8 ||| block.getD (i * 4 + 3) 0

/-- Message schedule: the sixteen block words extended to eighty. -/
def schedule (w : List Nat) : List Nat :=
  (List.range 64).foldl (fun w j =>
    let i := j + 16
    w ++ [left_rotate (w.getD (i - 3) 0 ^^^ w.getD (i - 8) 0 ^^^ w.getD (i - 14) 0
      ^^^ w.getD (i - 16) 0) 1]) w

/-- One of the eighty rounds of the compression function. -/
def round (w : List Nat) (s : Words5) (i : Nat) : Words5 :=
  let f :=
    if i < 20 then (s.b &&& s.c) ||| ((s.b ^^^ 0xFFFFFFFF) &&& s.d)
    else if i < 40 then s.b ^^^ s.c ^^^ s.d
    else if i < 60 then (s.b &&& s.c) ||| (s.b &&& s.d) ||| (s.c &&& s.d)
    else s.b ^^^ s.c ^^^ s.d
  let k :=
    if i < 20 then 0x5A827999
    else if i < 40 then 0x6ED9EBA1
    else if i < 60 then 0x8F1BBCDC
    else 0xCA62C1D6
  let temp := (left_rotate s.a 5 + f + s.e + k + w.getD i 0) % 2 ^ 32
  ⟨temp, s.a, left_rotate s.b 30, s.c, s.d⟩

/-- The compression function: absorb one 64-byte block into the chaining value. -/
def compress (h : Words5) (block : List Nat) : Words5 :=
  let w := schedule (blockWords block)
  let r := (List.range 80).foldl (round w) h
  ⟨(h.a + r.a) % 2 ^ 32, (h.b + r.b) % 2 ^ 32, (h.c + r.c) % 2 ^ 32,
   (h.d + r.d) % 2 ^ 32, (h.e + r.e) % 2 ^ 32⟩

/-- Padding of a message of `len` bytes: the byte `0x80`, zero bytes up to 56 modulo 64,
then the bit length as a 64-bit big-endian integer. -/
def padding (len : Nat) : List Nat :=
  0x80 :: List.replicate ((119 - len % 64) % 64) 0
    ++ (List.range 8).map fun i => (8 * len % 2 ^ 64) >>> (8 * (7 - i)) % 256

/-- The first `n` consecutive 64-byte blocks of a byte list. -/
def blocks : Nat → List Nat → List (List Nat)
  | 0, _ => []
  | n + 1, l => l.take 64 :: blocks n (l.drop 64)

/-- SHA-1 of a byte sequence, as its five 32-bit words. -/
def sha1Words (msg : List Nat) : Words5 :=
  let m := msg ++ padding msg.length
  (blocks (m.length / 64) m).foldl compress initialWords

/-- Every word of a chaining value is below `2 ^ 32`. -/
def Words5.inRange (w : Words5) : Prop :=
  w.a < 2 ^ 32 ∧ w.b < 2 ^ 32 ∧ w.c < 2 ^ 32 ∧ w.d < 2 ^ 32 ∧ w.e < 2 ^ 32

/-- A `void const*` argument: the null pointer, or an address, represented by the bytes
that can be read from that address on (the rest of the object it points into). -/
inductive Ptr where
  | null
  | addr (readable : List Nat)
deriving DecidableEq, Repr

/-- Read the byte at offset `i` from a pointer; `none` when there is no byte there. -/
def Ptr.read : Ptr → Nat → Option Nat
  | Ptr.null, _ => none
  | Ptr.addr readable, i => readable[i]?

/-- Modelled from the spec: the class `boost::uuids::detail::sha1` of `<boost/uuid/sha1.hpp>`,
which Util.hh includes (line 20) but which is not part of the repository. The spec calls it
"an external hashing primitive" that computes the "20-byte SHA1 digest" of the bytes it is
given. The object is modelled by the bytes it has been fed so far; `get_digest` is SHA-1
(FIPS 180-4) of exactly those bytes. -/
structure sha1 where
  fed : List Nat
deriving DecidableEq, Repr

/-- Modelled from the spec: the default constructor of the primitive, used at Util.hh
line 187; a fresh object has been fed nothing. -/
def sha1.ctor : sha1 := ⟨[]⟩

/-- Modelled from the spec: `process_byte(unsigned char)`, feeding one byte. -/
def sha1.process_byte (s : sha1) (byte : Nat) : sha1 :=
  ⟨s.fed ++ [byte % 256]⟩

/-- Modelled from the spec: `process_bytes(void const* buffer, std::size_t byte_count)`,
used at Util.hh lines 193 and 197: feeds the bytes at offsets `0 .. byte_count - 1` from
`buffer`, in order. The result is `none` when one of those bytes cannot be read. -/
def sha1.process_bytes (s : sha1) (buffer : Ptr) (byte_count : Nat) : Option sha1 :=
  (List.range byte_count).foldlM (fun acc i => (buffer.read i).map acc.process_byte) s

/-- Modelled from the spec: `get_digest(unsigned int (&digest)[5])`, used at Util.hh
line 200: stores the five 32-bit words of the SHA-1 digest of the bytes fed. -/
def sha1.get_digest (s : sha1) : Fin 5 → Nat :=
  let h := sha1Words s.fed
  fun i => [h.a, h.b, h.c, h.d, h.e].getD i.val 0

end boost.uuids.detail

/-! ## The output stream used by `getSha1` -/

namespace std

/-- Modelled from the spec: `std::stringstream` of `<sstream>` (Util.hh line 22), not part of
the repository; the spec only says that the digest is returned as lowercase hexadecimal
text. The model keeps the part of the stream state that Util.hh lines 204-207 touch: the
characters written so far, the fill character, the field width of the next insertion and
whether the base field is `hex`. -/
structure stringstream where
  written : List Char
  fillChar : Char
  width : Nat
  hexBase : Bool
deriving DecidableEq, Repr

/-- Modelled from the spec: a default-constructed stream is empty, fills with a blank, has
width 0 and writes decimal. -/
def stringstream.ctor : stringstream := ⟨[], ' ', 0, false⟩

/-- Modelled from the spec: the manipulator `std::setfill(c)`. -/
def setfill (c : Char) (s : stringstream) : stringstream :=
  { s with fillChar := c }

/-- Modelled from the spec: the manipulator `std::setw(n)`. -/
def setw (n : Nat) (s : stringstream) : stringstream :=
  { s with width := n }

/-- Modelled from the spec: the manipulator `std::hex`. -/
def hex (s : stringstream) : stringstream :=
  { s with hexBase := true }

/-- Modelled from the spec: `operator<<` for an `unsigned int`. The value is written in the
current base with the fewest digits (lowercase, no base marker), and padded on the left
with the fill character up to the field width; the width is then reset to 0. -/
def stringstream.insertUnsigned (s : stringstream) (v : Nat) : stringstream :=
  let digits := Nat.toDigits (if s.hexBase then 16 else 10) v
  { s with
    written := s.written ++ (List.replicate (s.width - digits.length) s.fillChar ++ digits)
    width := 0 }

/-- Modelled from the spec: `str()`, the characters written so far. -/
def stringstream.str (s : stringstream) : String := String.mk s.written

end std

/-! ## `getSha1` (Util.hh lines 184-211) -/

namespace ignition.common

open boost.uuids.detail std

/-- The element type of the container `T`: the value of `sizeof(_buffer[0])` and the
object representation of each element, a list of `sizeof` bytes. The elements of the
container lie one after the other in memory, which is what lets line 197 pass
`&(_buffer[0])` with `size() * sizeof(_buffer[0])` bytes. The object representation is
taken to be determined by the value of the element. -/
structure ElemType (α : Type) where
  sizeof : Nat
  bytes : α → List Nat
  bytes_length : ∀ a, (bytes a).length = sizeof

/-- Elements that are single bytes (`unsigned char`, and `char` read through its byte):
`sizeof` is 1 and the object representation is the byte itself. -/
def byteElem : ElemType UInt8 where
  sizeof := 1
  bytes := fun b => [b.toNat]
  bytes_length := fun _ => rfl

/-- A 16-bit little-endian element type, to exercise `sizeof(_buffer[0]) > 1`. -/
def u16leElem : ElemType (Fin 65536) where
  sizeof := 2
  bytes := fun v => [v.val % 256, v.val / 256]
  bytes_length := fun _ => rfl

/-- The memory occupied by the elements of the container, first element first. -/
def storage {α : Type} (E : ElemType α) (_buffer : List α) : List Nat :=
  _buffer.flatMap E.bytes

/-- The expression `&(_buffer[i])` with checked indexing: `none` when `i` is not the index
of an element, otherwise the address of element `i` inside the storage. -/
def addressOfElement {α : Type} (E : ElemType α) (_buffer : List α) (i : Nat) : Option Ptr :=
  (_buffer[i]?).map fun _ => Ptr.addr ((storage E _buffer).drop (i * E.sizeof))

/-- Value of `sizeof(hash[0])` for `unsigned int hash[5]`. -/
def sizeofUnsignedInt : Nat := 4

/-- Util.hh lines 202-208: one insertion per word of `hash`, in index order
(`sizeof(hash) / sizeof(hash[0])` is 5). -/
def formatDigest (hash : Fin 5 → Nat) (stream : stringstream) : stringstream :=
  (List.finRange 5).foldl
    (fun st i =>
      (hex (setw (sizeofUnsignedInt * 2) (setfill '0' st))).insertUnsigned (hash i))
    stream

/-- Util.hh lines 191-198: the two branches that feed the primitive. The result is `none`
when an element that does not exist is accessed or a byte outside the storage is read. -/
def feedBuffer {α : Type} (E : ElemType α) (_buffer : List α) (s : sha1) : Option sha1 :=
  if _buffer.length = 0 then
    s.process_bytes Ptr.null 0
  else
    (addressOfElement E _buffer 0).bind fun p =>
      s.process_bytes p (_buffer.length * E.sizeof)

/-- Util.hh lines 184-211, `ignition::common::getSha1`. -/
def getSha1 {α : Type} (E : ElemType α) (_buffer : List α) : Option String :=
  (feedBuffer E _buffer sha1.ctor).map fun s =>
    let hash := s.get_digest
    (formatDigest hash stringstream.ctor).str

/-! ### The rendering the documentation describes -/

/-- The lowercase hexadecimal digit for a value below 16. -/
def hexDigitLower (d : Nat) : Char :=
  "0123456789abcdef".data.getD d '0'

/-- A 32-bit word as 8 hexadecimal digits, most significant digit first, zero padded. -/
def wordHex8 (w : Nat) : List Char :=
  (List.range 8).map fun k => hexDigitLower (w / 16 ^ (7 - k) % 16)

/-- The five digest words in order, each as 8 digits, concatenated. -/
def digestHex (hash : Fin 5 → Nat) : String :=
  String.mk ((List.finRange 5).flatMap fun i => wordHex8 (hash i))

/-- The SHA-1 digest of a byte sequence: what the primitive returns after being fed
exactly these bytes. -/
def sha1Digest (message : List Nat) : Fin 5 → Nat :=
  (message.foldl sha1.process_byte sha1.ctor).get_digest

/-- The last `k` hexadecimal digits of `n`, most significant first. -/
def fixedHex : Nat → Nat → List Char
  | 0, _ => []
  | k + 1, n => fixedHex k (n / 16) ++ [Nat.digitChar (n % 16)]

end ignition.common

/-! ## State outside the call: the global locale and the stack -/

namespace std

/-- Modelled from the spec: `std::locale`, not part of the repository, reduced to the two
members of its `numpunct<char>` facet that the output of an integer consults: the size of
a digit group (0 when digits are not grouped) and the separator written between groups. -/
structure locale where
  grouping : Nat
  thousands_sep : Char
deriving DecidableEq, Repr

/-- Modelled from the spec: `std::locale::classic()`, the "C" locale a program starts
with: digits are not grouped. -/
def locale.classic : locale := ⟨0, ','⟩

/-- Walks the digits from the least significant one and writes the separator before every
digit that starts a new group; `k` counts the digits already in the current group. -/
def groupFromRight (g : Nat) (sep : Char) : Nat → List Char → List Char
  | _, [] => []
  | k, ch :: rest =>
    if k = g then sep :: ch :: groupFromRight g sep 1 rest
    else ch :: groupFromRight g sep (k + 1) rest

/-- Modelled from the spec: the digits of an integer after the locale has grouped them. -/
def locale.group (loc : locale) (digits : List Char) : List Char :=
  if loc.grouping = 0 then digits
  else (groupFromRight loc.grouping loc.thousands_sep 0 digits.reverse).reverse

/-- Modelled from the spec: a `std::stringstream` together with the locale it took at
construction, which is the global locale of that moment. -/
structure localized_stringstream where
  stream : stringstream
  getloc : locale
deriving DecidableEq, Repr

/-- Modelled from the spec: default construction under the global locale `global`. -/
def localized_stringstream.ctor (global : locale) : localized_stringstream :=
  ⟨stringstream.ctor, global⟩

/-- Modelled from the spec: `operator<<` for an `unsigned int` with the locale taken into
account: the digits are grouped by the locale, then padded on the left with the fill
character up to the field width; the width is then reset to 0. -/
def localized_stringstream.insertUnsigned (s : localized_stringstream) (v : Nat) :
    localized_stringstream :=
  let digits := s.getloc.group (Nat.toDigits (if s.stream.hexBase then 16 else 10) v)
  { s with
    stream := { s.stream with
      written := s.stream.written
        ++ (List.replicate (s.stream.width - digits.length) s.stream.fillChar ++ digits)
      width := 0 } }

end std

namespace ignition.common

open boost.uuids.detail std

/-- What exists before a call of `getSha1` and after it: the global locale of the process,
which the constructor of the stream reads (Util.hh line 189), and the content of the stack
memory in which `unsigned int hash[5]` is declared without an initializer (line 188). -/
structure World where
  global_locale : locale
  stack_hash : Fin 5 → Nat

/-- Modelled from the spec: `get_digest` writing into the caller's array: all five words
are assigned, whatever the array held. -/
def get_digest_into (s : sha1) (_old : Fin 5 → Nat) : Fin 5 → Nat :=
  s.get_digest

/-- Util.hh lines 202-208 on a stream that carries its locale. -/
def formatDigestIn (hash : Fin 5 → Nat) (stream : localized_stringstream) :
    localized_stringstream :=
  (List.finRange 5).foldl
    (fun st i =>
      ({ st with stream := hex (setw (sizeofUnsignedInt * 2) (setfill '0' st.stream)) }
        : localized_stringstream).insertUnsigned (hash i))
    stream

/-- Util.hh lines 184-211 with the state outside the call made explicit: the call starts in
a world, constructs its three locals there (`hash` keeps what the stack held), and returns
its result together with the world it leaves behind. -/
def getSha1Call {α : Type} (E : ElemType α) (w : World) (_buffer : List α) :
    Option String × World :=
  let sha1 := sha1.ctor
  let hash := w.stack_hash
  let stream := localized_stringstream.ctor w.global_locale
  match feedBuffer E _buffer sha1 with
  | none => (none, w)
  | some sha1 =>
    let hash := get_digest_into sha1 hash
    let stream := formatDigestIn hash stream
    (some stream.stream.str, { w with stack_hash := hash })

/-- The world after a series of calls made one after the other, each starting in the world
the previous one left. -/
def worldAfter {α : Type} (E : ElemType α) (w : World) (inputs : List (List α)) : World :=
  inputs.foldl (fun w' b => (getSha1Call E w' b).2) w

/-- An IEEE 754 binary64 value (`double`), given by its 64-bit pattern. -/
structure Double where
  bits : UInt64
deriving DecidableEq, Repr

/-- The value `+0.0`. -/
def Double.posZero : Double := ⟨0x0000000000000000⟩

/-- The value `-0.0`: only the sign bit is set. -/
def Double.negZero : Double := ⟨0x8000000000000000⟩

/-- Not a number: the exponent field is all ones and the fraction is not zero. -/
def Double.isNaN (d : Double) : Bool :=
  d.bits.toNat / 2 ^ 52 % 2 ^ 11 == 2 ^ 11 - 1 && d.bits.toNat % 2 ^ 52 != 0

/-- A zero of either sign: every bit below the sign bit is 0. -/
def Double.isZero (d : Double) : Bool :=
  d.bits.toNat % 2 ^ 63 == 0

/-- The operator `==` on `double`: false when an operand is not a number, true for two
zeros of any sign, otherwise equality of the patterns. -/
def Double.eq (x y : Double) : Bool :=
  !x.isNaN && !y.isNaN && ((x.isZero && y.isZero) || x.bits.toNat == y.bits.toNat)

/-- Elements of type `double`: `sizeof` is 8 and the object representation is the pattern,
least significant byte first. -/
def doubleElem : ElemType Double where
  sizeof := 8
  bytes := fun d => (List.range 8).map fun i => d.bits.toNat / 256 ^ i % 256
  bytes_length := fun _ => by simp

/-- Two sequences are equal element for element under the operator `==` of their element
type: same length, and `==` holds at every index. -/
def elementwiseEq {α : Type} (eq : α → α → Bool) : List α → List α → Bool
  | [], [] => true
  | a :: x, b :: y => eq a b && elementwiseEq eq x y
  | _, _ => false

end ignition.common


/-! ## Lemmas: hexadecimal rendering -/

namespace ignition.common

open boost.uuids.detail std

theorem toDigitsCore_acc (f n : Nat) (acc : List Char) :
    Nat.toDigitsCore 16 f n acc = Nat.toDigitsCore 16 f n [] ++ acc := by
  induction f generalizing n acc with
  | zero => simp [Nat.toDigitsCore]
  | succ f ih =>
    simp only [Nat.toDigitsCore]
    split
    · simp
    · rw [ih (n / 16) (Nat.digitChar (n % 16) :: acc), ih (n / 16) [Nat.digitChar (n % 16)]]
      simp

theorem fixedHex_zero (k : Nat) : fixedHex k 0 = List.replicate k '0' := by
  induction k with
  | zero => simp [fixedHex]
  | succ k ih =>
    simp only [fixedHex, Nat.zero_div, Nat.zero_mod, ih]
    rw [List.replicate_succ']
    rfl

theorem pad_toDigitsCore (k : Nat) : ∀ n f : Nat, n < 16 ^ (k + 1) → n < f →
    (Nat.toDigitsCore 16 f n []).length ≤ k + 1 ∧
    List.replicate (k + 1 - (Nat.toDigitsCore 16 f n []).length) '0'
      ++ Nat.toDigitsCore 16 f n [] = fixedHex (k + 1) n := by
  induction k with
  | zero =>
    intro n f hn hf
    obtain ⟨f, rfl⟩ : ∃ g, f = g + 1 := ⟨f - 1, by omega⟩
    have h0 : n / 16 = 0 := by omega
    simp [Nat.toDigitsCore, h0, fixedHex]
  | succ k ih =>
    intro n f hn hf
    obtain ⟨f, rfl⟩ : ∃ g, f = g + 1 := ⟨f - 1, by omega⟩
    by_cases h0 : n / 16 = 0
    · simp only [Nat.toDigitsCore, h0, if_true, List.length_singleton]
      refine ⟨by omega, ?_⟩
      rw [fixedHex, h0, fixedHex_zero]
      simp
    · have hn' : n / 16 < 16 ^ (k + 1) := by
        rw [Nat.div_lt_iff_lt_mul (by norm_num)]
        calc n < 16 ^ (k + 1 + 1) := hn
          _ = 16 ^ (k + 1) * 16 := by ring
      have hf' : n / 16 < f := by omega
      obtain ⟨hlen, hpad⟩ := ih (n / 16) f hn' hf'
      simp only [Nat.toDigitsCore, h0, if_false]
      rw [toDigitsCore_acc]
      refine ⟨by simp; omega, ?_⟩
      rw [fixedHex, ← hpad]
      simp only [List.length_append, List.length_singleton, List.append_assoc]
      congr 2
      omega

theorem digitChar_eq_hexDigitLower (d : Nat) (hd : d < 16) :
    Nat.digitChar d = hexDigitLower d := by
  interval_cases d <;> rfl

theorem wordHex8_eq_fixedHex (w : Nat) : wordHex8 w = fixedHex 8 w := by
  have hr : List.range 8 = [0, 1, 2, 3, 4, 5, 6, 7] := by decide
  simp only [wordHex8, hr, List.map, fixedHex, List.nil_append, List.cons_append,
    List.append_assoc]
  simp only [← digitChar_eq_hexDigitLower _ (Nat.mod_lt _ (show 0 < 16 by norm_num))]
  norm_num [Nat.div_div_eq_div_mul]

/-- The insertion performed in the loop body: with fill `0`, width 8 and base 16, a word
below `2 ^ 32` is appended as exactly its 8 hexadecimal digits. -/
theorem insertUnsigned_hex8 (st : stringstream) (v : Nat) (hv : v < 2 ^ 32) :
    (hex (setw (sizeofUnsignedInt * 2) (setfill '0' st))).insertUnsigned v =
      { written := st.written ++ fixedHex 8 v, fillChar := '0', width := 0, hexBase := true } := by
  have h := (pad_toDigitsCore 7 v (v + 1) (by norm_num at hv ⊢; omega) (by omega)).2
  simp only [stringstream.insertUnsigned, hex, setw, setfill, sizeofUnsignedInt, if_true,
    Nat.toDigits]
  norm_num at h ⊢
  exact h

theorem finRange_five : List.finRange 5 = [0, 1, 2, 3, 4] := by decide

theorem formatDigest_written (hash : Fin 5 → Nat) (hh : ∀ i, hash i < 2 ^ 32)
    (st : stringstream) :
    (formatDigest hash st).written =
      st.written ++ (fixedHex 8 (hash 0) ++ fixedHex 8 (hash 1) ++ fixedHex 8 (hash 2)
        ++ fixedHex 8 (hash 3) ++ fixedHex 8 (hash 4)) := by
  simp only [formatDigest, finRange_five, List.foldl, insertUnsigned_hex8 _ _ (hh _),
    List.append_assoc]
  rfl

theorem digestHex_data (hash : Fin 5 → Nat) :
    (digestHex hash).data =
      fixedHex 8 (hash 0) ++ fixedHex 8 (hash 1) ++ fixedHex 8 (hash 2)
        ++ fixedHex 8 (hash 3) ++ fixedHex 8 (hash 4) := by
  simp [digestHex, finRange_five, List.flatMap, wordHex8_eq_fixedHex]

end ignition.common

/-! ## Lemmas: the primitive and the bytes it is fed -/

namespace boost.uuids.detail

theorem compress_inRange (h : Words5) (block : List Nat) : (compress h block).inRange := by
  simp only [compress, Words5.inRange]
  refine ⟨?_, ?_, ?_, ?_, ?_⟩ <;> exact Nat.mod_lt _ (by norm_num)

theorem foldl_compress_inRange (bs : List (List Nat)) (h : Words5) (hh : h.inRange) :
    (bs.foldl compress h).inRange := by
  induction bs generalizing h with
  | nil => exact hh
  | cons b bs ih =>
    rw [List.foldl_cons]
    exact ih _ (compress_inRange h b)

theorem sha1Words_inRange (msg : List Nat) : (sha1Words msg).inRange := by
  apply foldl_compress_inRange
  simp only [initialWords, Words5.inRange]
  norm_num

theorem get_digest_lt (s : sha1) (i : Fin 5) : s.get_digest i < 2 ^ 32 := by
  obtain ⟨ha, hb, hc, hd, he⟩ := sha1Words_inRange s.fed
  simp only [sha1.get_digest]
  fin_cases i
  · exact ha
  · exact hb
  · exact hc
  · exact hd
  · exact he

theorem process_bytes_zero (s : sha1) (p : Ptr) : s.process_bytes p 0 = some s := by
  simp [sha1.process_bytes]

theorem process_bytes_addr (s : sha1) (mem : List Nat) (n : Nat) (hn : n ≤ mem.length) :
    s.process_bytes (Ptr.addr mem) n = some ⟨s.fed ++ (mem.take n).map (· % 256)⟩ := by
  induction n with
  | zero => simp [sha1.process_bytes]
  | succ n ih =>
    have hlt : n < mem.length := by omega
    have ih' := ih (by omega)
    simp only [sha1.process_bytes] at ih' ⊢
    rw [List.range_succ, List.foldlM_append, ih']
    simp only [List.take_succ, List.getElem?_eq_getElem hlt, Ptr.read, sha1.process_byte,
      Option.some_bind, List.foldlM_cons, List.foldlM_nil, Option.map_some', Option.toList_some,
      List.map_append, List.map_cons, List.map_nil, List.append_assoc, Option.bind_eq_bind,
      Option.pure_def]

theorem foldl_process_byte (msg : List Nat) (s : sha1) :
    msg.foldl sha1.process_byte s = ⟨s.fed ++ msg.map (· % 256)⟩ := by
  induction msg generalizing s with
  | nil => simp
  | cons b msg ih => simp [ih, sha1.process_byte]

end boost.uuids.detail

namespace ignition.common

open boost.uuids.detail std

theorem storage_length {α : Type} (E : ElemType α) (buf : List α) :
    (storage E buf).length = buf.length * E.sizeof := by
  induction buf with
  | nil => simp [storage]
  | cons a buf ih =>
    simp only [storage, List.flatMap_cons, List.length_append, List.length_cons] at ih ⊢
    rw [ih, E.bytes_length]
    ring

theorem feedBuffer_eq {α : Type} (E : ElemType α) (buf : List α) (s : sha1) :
    feedBuffer E buf s = some ⟨s.fed ++ (storage E buf).map (· % 256)⟩ := by
  cases buf with
  | nil => simp [feedBuffer, process_bytes_zero, storage]
  | cons a buf =>
    have hlen := storage_length E (a :: buf)
    simp only [feedBuffer, addressOfElement, List.length_cons, Nat.add_one_ne_zero, if_false,
      List.getElem?_cons_zero, Option.map_some', Nat.zero_mul, List.drop_zero,
      Option.some_bind]
    rw [process_bytes_addr _ _ _ (by rw [hlen]; simp)]
    rw [List.take_of_length_le (by rw [hlen]; simp)]

theorem sha1Digest_eq (msg : List Nat) :
    sha1Digest msg = (sha1.mk (msg.map (· % 256))).get_digest := by
  simp [sha1Digest, foldl_process_byte, sha1.ctor]

theorem str_formatDigest (hash : Fin 5 → Nat) (hh : ∀ i, hash i < 2 ^ 32) :
    (formatDigest hash stringstream.ctor).str = digestHex hash := by
  have hw := formatDigest_written hash hh stringstream.ctor
  have hd := digestHex_data hash
  unfold stringstream.str
  rw [hw, ← hd]
  simp only [stringstream.ctor, List.nil_append]

/-- The function in closed form: it never fails, and its result is the hexadecimal
rendering of the digest of the bytes of the storage. -/
theorem getSha1_eq {α : Type} (E : ElemType α) (buf : List α) :
    getSha1 E buf = some (digestHex (sha1Digest (storage E buf))) := by
  simp only [getSha1, feedBuffer_eq, Option.map_some', sha1Digest_eq, sha1.ctor,
    List.nil_append]
  rw [str_formatDigest _ (get_digest_lt _)]

theorem sha1Digest_lt (msg : List Nat) (i : Fin 5) : sha1Digest msg i < 2 ^ 32 := by
  rw [sha1Digest_eq]; exact get_digest_lt _ i

end ignition.common

/-! ## The modelled primitive against the published SHA-1 values -/

namespace ignition.common

open boost.uuids.detail std

set_option maxRecDepth 1000000 in
/-- FIPS 180 example: the one-block message `abc`. -/
theorem digestHex_sha1Digest_abc :
    digestHex (sha1Digest [0x61, 0x62, 0x63]) = "a9993e364706816aba3e25717850c26c9cd0d89d" := by
  decide

set_option maxRecDepth 1000000 in
/-- FIPS 180 example: the two-block message
`abcdbcdecdefdefgefghfghighijhijkijkljklmklmnlmnomnopnopq`. -/
theorem digestHex_sha1Digest_two_blocks :
    digestHex (sha1Digest
      [0x61, 0x62, 0x63, 0x64, 0x62, 0x63, 0x64, 0x65, 0x63, 0x64, 0x65, 0x66, 0x64, 0x65,
       0x66, 0x67, 0x65, 0x66, 0x67, 0x68, 0x66, 0x67, 0x68, 0x69, 0x67, 0x68, 0x69, 0x6a,
       0x68, 0x69, 0x6a, 0x6b, 0x69, 0x6a, 0x6b, 0x6c, 0x6a, 0x6b, 0x6c, 0x6d, 0x6b, 0x6c,
       0x6d, 0x6e, 0x6c, 0x6d, 0x6e, 0x6f, 0x6d, 0x6e, 0x6f, 0x70, 0x6e, 0x6f, 0x70, 0x71])
      = "84983e441c3bd26ebaae4aa1f95129e5e54670f1" := by
  decide

end ignition.common

/-! ## Lemmas: calls in an explicit world -/

namespace ignition.common

open boost.uuids.detail std

theorem insertUnsigned_classic (st : localized_stringstream) (v : Nat)
    (hl : st.getloc = locale.classic) :
    st.insertUnsigned v = ⟨st.stream.insertUnsigned v, locale.classic⟩ := by
  obtain ⟨base, loc⟩ := st
  simp only at hl
  subst hl
  simp [localized_stringstream.insertUnsigned, stringstream.insertUnsigned, locale.group,
    locale.classic]

theorem foldl_insert_classic (hash : Fin 5 → Nat) (l : List (Fin 5)) :
    ∀ st : localized_stringstream, st.getloc = locale.classic →
    l.foldl (fun st i =>
        ({ st with stream := hex (setw (sizeofUnsignedInt * 2) (setfill '0' st.stream)) }
          : localized_stringstream).insertUnsigned (hash i)) st =
      ⟨l.foldl (fun st i =>
        (hex (setw (sizeofUnsignedInt * 2) (setfill '0' st))).insertUnsigned (hash i))
        st.stream, locale.classic⟩ := by
  induction l with
  | nil => intro st hl; obtain ⟨base, loc⟩ := st; simp only at hl; subst hl; rfl
  | cons i l ih =>
    intro st hl
    rw [List.foldl_cons, List.foldl_cons,
      insertUnsigned_classic
        ⟨hex (setw (sizeofUnsignedInt * 2) (setfill '0' st.stream)), st.getloc⟩ (hash i) hl]
    exact ih _ rfl

theorem formatDigestIn_classic (hash : Fin 5 → Nat) (st : localized_stringstream)
    (hl : st.getloc = locale.classic) :
    (formatDigestIn hash st).stream = formatDigest hash st.stream := by
  rw [formatDigestIn, foldl_insert_classic hash _ st hl]
  rfl

/-- The result of a call is determined by the global locale and the bytes of the storage;
the stack content is not read. -/
theorem getSha1Call_result {α : Type} (E : ElemType α) (w : World) (buf : List α) :
    (getSha1Call E w buf).1 =
      some (formatDigestIn (sha1Digest (storage E buf))
        (localized_stringstream.ctor w.global_locale)).stream.str := by
  simp only [getSha1Call, feedBuffer_eq, get_digest_into, sha1Digest_eq, sha1.ctor,
    List.nil_append]

theorem getSha1Call_locale {α : Type} (E : ElemType α) (w : World) (buf : List α) :
    (getSha1Call E w buf).2.global_locale = w.global_locale := by
  simp only [getSha1Call, feedBuffer_eq]

theorem worldAfter_locale {α : Type} (E : ElemType α) (w : World) (inputs : List (List α)) :
    (worldAfter E w inputs).global_locale = w.global_locale := by
  induction inputs generalizing w with
  | nil => rfl
  | cons b inputs ih =>
    simp only [worldAfter, List.foldl_cons] at ih ⊢
    rw [ih, getSha1Call_locale]

set_option maxRecDepth 1000000 in
theorem getSha1_posZero :
    getSha1 doubleElem [Double.posZero] = some "05fe405753166f125559e7c9ac558654f107c7e9" := by
  decide

set_option maxRecDepth 1000000 in
theorem getSha1_negZero :
    getSha1 doubleElem [Double.negZero] = some "3c26cf5a08175c33d794bedb16d9a85f80c5baed" := by
  decide

set_option maxRecDepth 1000000 in
theorem getSha1Call_empty_classic :
    (getSha1Call byteElem ⟨locale.classic, fun _ => 0⟩ ([] : List UInt8)).1 =
      some "da39a3ee5e6b4b0d3255bfef95601890afd80709" := by
  decide

set_option maxRecDepth 1000000 in
theorem getSha1Call_empty_grouped :
    (getSha1Call byteElem ⟨⟨3, ','⟩, fun _ => 0⟩ ([] : List UInt8)).1 =
      some "da,39a,3ee5e,6b4,b0d32,55b,fef95,601,890af,d80,709" := by
  decide

end ignition.common

/-! ## Results: constants, assertion and attribute definitions -/

/-- C6 (evaluation of the code): read as an exact decimal, the literal of `IGN_NANO_TO_SEC`
is `10^-10`, so its product with `IGN_SEC_TO_NANO` is `1/10`, not 1, and it differs from
`1 / IGN_SEC_TO_NANO`, the number of seconds in one nanosecond that its documentation
names. -/
theorem IGN_NANO_TO_SEC_is_tenth_of_inverse :
    IGN_NANO_TO_SEC = 1 / 10 ^ 10 ∧
    IGN_NANO_TO_SEC * (IGN_SEC_TO_NANO : ℚ) = 1 / 10 ∧
    IGN_NANO_TO_SEC ≠ 1 / (IGN_SEC_TO_NANO : ℚ) := by
  refine ⟨?_, ?_, ?_⟩ <;> norm_num [IGN_NANO_TO_SEC, IGN_SEC_TO_NANO]

/-- C7: the integer conversion constants are `10^3`, `10^6` and `10^9` nanoseconds, each
is 1000 times the one below it, and each lies in the range of a signed 32-bit integer. -/
theorem nano_constants_consistent :
    IGN_US_TO_NANO = 10 ^ 3 ∧
    IGN_MS_TO_NANO = 10 ^ 6 ∧ IGN_MS_TO_NANO = 1000 * IGN_US_TO_NANO ∧
    IGN_SEC_TO_NANO = 10 ^ 9 ∧ IGN_SEC_TO_NANO = 1000 * IGN_MS_TO_NANO ∧
    (INT32_MIN ≤ IGN_US_TO_NANO ∧ IGN_US_TO_NANO ≤ INT32_MAX) ∧
    (INT32_MIN ≤ IGN_MS_TO_NANO ∧ IGN_MS_TO_NANO ≤ INT32_MAX) ∧
    (INT32_MIN ≤ IGN_SEC_TO_NANO ∧ IGN_SEC_TO_NANO ≤ INT32_MAX) := by
  simp only [IGN_US_TO_NANO, IGN_MS_TO_NANO, IGN_SEC_TO_NANO, INT32_MIN, INT32_MAX]
  norm_num

/-- C5 (counterexample): in a build that defines `NDEBUG`, `ign_assert` with a false
condition does not halt, so "halts if and only if `_expr` is false" fails there. -/
theorem ign_assert_ndebug_false_continues :
    ign_assert true false "unreachable" = Outcome.continues ∧
    ¬ (ign_assert true false "unreachable" = Outcome.halts ↔ false = false) := by
  decide

/-- C5 (amended): for every condition and message, `ign_assert(_expr, _msg)` halts if and
only if `NDEBUG` is not defined and `_expr` is false; the message never changes the outcome;
and when `_expr` is true execution continues. -/
theorem ign_assert_halts_iff (NDEBUG _expr : Bool) (_msg _msg2 : String) :
    (ign_assert NDEBUG _expr _msg = Outcome.halts ↔ (NDEBUG = false ∧ _expr = false)) ∧
    ign_assert NDEBUG _expr _msg = ign_assert NDEBUG _expr _msg2 ∧
    ign_assert NDEBUG true _msg = Outcome.continues := by
  cases NDEBUG <;> cases _expr <;> simp [ign_assert, cassert, comma]

/-- C10 (counterexample): with `_WIN32` defined and neither `__GNUC__` nor `MSVC` defined,
`IGN_FORCEINLINE` expands to nothing while `IGNITION_COMMON_FORCEINLINE` expands to
`__forceinline`. -/
theorem forceinline_differs_on_win32_without_MSVC :
    IGN_FORCEINLINE ⟨none, true, false, false, false⟩ = [] ∧
    IGNITION_COMMON_FORCEINLINE ⟨none, true, false, false, false⟩ = ["__forceinline"] ∧
    IGN_FORCEINLINE ⟨none, true, false, false, false⟩ ≠
      IGNITION_COMMON_FORCEINLINE ⟨none, true, false, false, false⟩ := by
  decide

/-- C10 (amended): for every configuration, `IGN_DEPRECATED`, `IGNITION_VISIBLE` and
`IGNITION_HIDDEN` expand to the same tokens as their System.hh counterparts, and
`IGN_FORCEINLINE` expands to the same tokens as `IGNITION_COMMON_FORCEINLINE` exactly when
`__GNUC__` is defined or `MSVC` and `_WIN32` are both defined or both not defined. -/
theorem util_attributes_vs_system (c : Config) (version : Tokens) :
    IGN_DEPRECATED c version = IGNITION_COMMON_DEPRECATED c version ∧
    IGNITION_VISIBLE c = IGNITION_COMMON_VISIBLE c ∧
    IGNITION_HIDDEN c = IGNITION_COMMON_HIDDEN c ∧
    (IGN_FORCEINLINE c = IGNITION_COMMON_FORCEINLINE c ↔
      (c.GNUC.isSome = true ∨ c.MSVC = c.WIN32)) := by
  obtain ⟨g, w, y, m, b⟩ := c
  refine ⟨?_, rfl, rfl, ?_⟩
  · simp only [IGN_DEPRECATED, IGNITION_COMMON_DEPRECATED, ite_self]
  · cases g <;> cases w <;> cases m <;>
      simp [IGN_FORCEINLINE, IGNITION_COMMON_FORCEINLINE]

/-! ## Results: `getSha1` -/

namespace ignition.common

open boost.uuids.detail std

/-- C4 (counterexample): the sequences `{+0.0}` and `{-0.0}` of `double` are equal element
for element, yet `getSha1` returns different strings for them; and the same empty input
gives different strings in two worlds that differ only in the global locale. -/
theorem getSha1_not_determined_by_equal_elements :
    (elementwiseEq Double.eq [Double.posZero] [Double.negZero] = true ∧
      getSha1 doubleElem [Double.posZero] ≠ getSha1 doubleElem [Double.negZero]) ∧
    (getSha1Call byteElem ⟨locale.classic, fun _ => 0⟩ ([] : List UInt8)).1 ≠
      (getSha1Call byteElem ⟨⟨3, ','⟩, fun _ => 0⟩ ([] : List UInt8)).1 := by
  refine ⟨⟨by decide, ?_⟩, ?_⟩
  · rw [getSha1_posZero, getSha1_negZero]
    decide
  · rw [getSha1Call_empty_classic, getSha1Call_empty_grouped]
    decide

/-- C4 (amended): two calls made under the same global locale on inputs with the same
object representation return equal strings, whatever calls of `getSha1` were made before
either of them and whatever the stack held; a series of calls leaves the global locale as
it was; and under the classic locale the string is the one `getSha1` computes. -/
theorem getSha1Call_deterministic {α β : Type} (E : ElemType α) (F : ElemType β)
    (w₁ w₂ : World) (earlier₁ : List (List α)) (earlier₂ : List (List β))
    (x : List α) (y : List β)
    (hloc : w₁.global_locale = w₂.global_locale) (hxy : storage E x = storage F y) :
    (getSha1Call E (worldAfter E w₁ earlier₁) x).1 =
      (getSha1Call F (worldAfter F w₂ earlier₂) y).1 ∧
    (worldAfter E w₁ earlier₁).global_locale = w₁.global_locale ∧
    (getSha1Call E (worldAfter E ⟨locale.classic, w₁.stack_hash⟩ earlier₁) x).1 =
      getSha1 E x := by
  refine ⟨?_, worldAfter_locale E w₁ earlier₁, ?_⟩
  · rw [getSha1Call_result, getSha1Call_result, worldAfter_locale, worldAfter_locale,
      hloc, hxy]
  · rw [getSha1Call_result, worldAfter_locale]
    show some (formatDigestIn _ (localized_stringstream.ctor locale.classic)).stream.str = _
    rw [localized_stringstream.ctor, formatDigestIn_classic _ _ rfl, getSha1_eq,
      str_formatDigest _ (sha1Digest_lt _)]

theorem getSha1Call_deterministic_witness :
    (getSha1Call byteElem (worldAfter byteElem ⟨⟨3, ','⟩, fun _ => 0⟩ [[0x00], []])
        [0x61, 0x62]).1 =
      (getSha1Call u16leElem (worldAfter u16leElem ⟨⟨3, ','⟩, fun _ => 7⟩ []) [0x6261]).1 ∧
    (worldAfter byteElem ⟨⟨3, ','⟩, fun _ => 0⟩ [[0x00], []]).global_locale = ⟨3, ','⟩ ∧
    (getSha1Call byteElem (worldAfter byteElem ⟨locale.classic, fun _ => 0⟩ [[0x00], []])
        [0x61, 0x62]).1 = getSha1 byteElem [0x61, 0x62] :=
  getSha1Call_deterministic byteElem u16leElem ⟨⟨3, ','⟩, fun _ => 0⟩ ⟨⟨3, ','⟩, fun _ => 7⟩
    [[0x00], []] [] [0x61, 0x62] [0x6261] rfl (by decide)

/-- C8: with checked indexing `getSha1` never takes the out-of-range branch: feeding the
primitive and the whole call succeed for every input; element 0 fails to exist only for
the empty buffer, which takes the branch that passes a null pointer and a length of 0; and
a length of 0 feeds nothing and gives the same result from any pointer. -/
theorem getSha1_never_out_of_range {α : Type} (E : ElemType α) (buf : List α) (s : sha1)
    (p : Ptr) :
    (∃ out, getSha1 E buf = some out) ∧
    (∃ s', feedBuffer E buf s = some s') ∧
    (addressOfElement E buf 0 = none ↔ buf.length = 0) ∧
    feedBuffer E ([] : List α) s = s.process_bytes Ptr.null 0 ∧
    s.process_bytes Ptr.null 0 = some s ∧
    s.process_bytes p 0 = s.process_bytes Ptr.null 0 := by
  refine ⟨⟨_, getSha1_eq E buf⟩, ⟨_, feedBuffer_eq E buf s⟩, ?_, rfl,
    process_bytes_zero s _, ?_⟩
  · cases buf <;> simp [addressOfElement]
  · rw [process_bytes_zero, process_bytes_zero]

end ignition.common
